import Mathlib

/-!
Shallow embedding of the agent tool-calling loop of `feiw21/ai-party-agent`.

The embedded code:
* `src/app.py` — `ROLLING_MEMORY_WINDOW`, `run_agent_with_tools(messages, max_steps)`:
  the orchestration loop that windows the conversation, invokes the model gateway,
  appends the returned messages, dispatches tool calls and collects their results.
* `src/core/app.py` — the variant `run_agent_with_tools(messages)` that performs a
  single gateway invocation on the windowed conversation and returns the gateway's
  message list.
* `src/tools.py` — `get_hub_stats(author)`.

Python dynamic values that the loop inspects (message `content` fields and
`tool_call` payloads) are modelled by `PyVal` (a string or a dict).  The model
gateway (`alfred.invoke` composed with the `"messages"` projection) is an opaque
function from the windowed message list to a message list.  Tool functions may
raise; this is modelled by `Except String String` (the error carries `str(e)`).
Uncaught exceptions of the loop itself (`IndexError` from `messages[-1]` on an
empty list, `AttributeError` from calling `.get` on a non-dict) are modelled by
the `fail` outcome.
-/

namespace AiPartyAgent

/-- A Python value as inspected by the loop: a string or a dict with string keys. -/
inductive PyVal where
  | str : String → PyVal
  | dict : List (String × PyVal) → PyVal

/-- Role of a conversation message (`HumanMessage`, `AIMessage`, `ToolMessage`). -/
inductive MsgRole where
  | human
  | ai
  | tool

/-- A conversation message.  `toolCallAttr = some v` models a message object that
has a `tool_call` attribute with value `v` (so `hasattr(m, "tool_call")` is true). -/
structure Msg where
  role : MsgRole
  content : PyVal
  toolCallAttr : Option PyVal

/-- `HumanMessage(content=s)`: human role, string content, no `tool_call` attribute. -/
def humanMsg (s : String) : Msg :=
  { role := MsgRole.human, content := PyVal.str s, toolCallAttr := none }

/-- `AIMessage(content=s)` as appended by the loop: ai role, string content, no
`tool_call` attribute. -/
def aiMsg (s : String) : Msg :=
  { role := MsgRole.ai, content := PyVal.str s, toolCallAttr := none }

/-- Python `d.get(k)`: first binding of `k`, or `None` (here `none`). -/
def dictGet (d : List (String × PyVal)) (k : String) : Option PyVal :=
  (d.find? (fun p => p.1 == k)).map (fun p => p.2)

/-- Python `d.get(k, default)`. -/
def dictGetD (d : List (String × PyVal)) (k : String) (default : PyVal) : PyVal :=
  (dictGet d k).getD default

/-- Python `"name" in d` (membership in the dict's keys). -/
def dictHasKey (d : List (String × PyVal)) (k : String) : Bool :=
  d.any (fun p => p.1 == k)

mutual

/-- Python `repr`/`str` of a dict value (simplified: no escape handling inside
strings, which the embedded scenarios never need). -/
def pyRepr : PyVal → String
  | PyVal.str s => "'" ++ s ++ "'"
  | PyVal.dict d => "\x7b" ++ pyReprEntries d ++ "\x7d"

/-- Comma-separated `'key': repr(value)` entries of a dict. -/
def pyReprEntries : List (String × PyVal) → String
  | [] => ""
  | [(k, v)] => "'" ++ k ++ "': " ++ pyRepr v
  | (k, v) :: r => "'" ++ k ++ "': " ++ pyRepr v ++ ", " ++ pyReprEntries r

end

/-- Python `str(v)` for a `PyVal`: a string prints itself, a dict prints its repr. -/
def pyValStr : PyVal → String
  | PyVal.str s => s
  | PyVal.dict d => pyRepr (PyVal.dict d)

/-- Python `str(x)` where `x` is `d.get("name")` (possibly `None`). -/
def pyStrOf : Option PyVal → String
  | none => "None"
  | some v => pyValStr v

/-- A tool as stored in the module-level `tools` list of `src/app.py`: a `name`
and the raw function `func` (which may raise — `Except.error` carries `str(e)`). -/
structure PyTool where
  name : String
  func : PyVal → Except String String

/-- The model gateway: `alfred.invoke({"messages": w})["messages"]` as an opaque
function from the windowed message list to the returned message list. -/
def Gateway : Type := List Msg → List Msg

/-- `ROLLING_MEMORY_WINDOW = 50` from `src/app.py`. -/
def ROLLING_MEMORY_WINDOW : Nat := 50

/-- `messages[-ROLLING_MEMORY_WINDOW:]`: the last 50 messages (the whole list if
it is shorter). -/
def windowOf (ms : List Msg) : List Msg :=
  ms.drop (ms.length - ROLLING_MEMORY_WINDOW)

/-- `response["messages"][len(messages):]`: the slice of the gateway response
starting at the full-history length. -/
def newMsgsOf (gw : Gateway) (ms : List Msg) : List Msg :=
  (gw (windowOf ms)).drop ms.length

/-- `messages` after `messages.extend(new_msgs)`. -/
def grown (gw : Gateway) (ms : List Msg) : List Msg :=
  ms ++ newMsgsOf gw ms

/-- `hasattr(last_msg, "tool_call") or (isinstance(last_msg.content, dict) and
"name" in last_msg.content)`. -/
def isToolCallMsg (m : Msg) : Bool :=
  m.toolCallAttr.isSome ||
    (match m.content with
     | PyVal.dict d => dictHasKey d "name"
     | _ => false)

/-- `tool_call = last_msg.tool_call if hasattr(last_msg, "tool_call") else
last_msg.content`. -/
def toolCallVal (m : Msg) : PyVal :=
  match m.toolCallAttr with
  | some v => v
  | none => m.content

/-- `tool_args = tool_call.get("arguments", tool_call.get("input", ""))`. -/
def rawArgs (d : List (String × PyVal)) : PyVal :=
  dictGetD d "arguments" (dictGetD d "input" (PyVal.str ""))

/-- `t.name == tool_name` where `tool_name = tool_call.get("name")`: Python `==`
between a string and an arbitrary value is true only for an equal string. -/
def toolNameHit (t : PyTool) (nameVal : Option PyVal) : Bool :=
  match nameVal with
  | some (PyVal.str s) => t.name == s
  | _ => false

/-- Content of the message appended after executing a found tool: the tool's
return value on success, `"Error executing tool <name>: <cause>"` when the tool
body raised (`except Exception as e`). -/
def toolOutcome (nameVal : Option PyVal) : Except String String → String
  | Except.ok r => r
  | Except.error e => "Error executing tool " ++ pyStrOf nameVal ++ ": " ++ e

/-- Outcome of one iteration of the `for` loop body. -/
inductive StepOut where
  | next : List Msg → StepOut
  | stop : List Msg → StepOut
  | fail : String → StepOut

/-- The tool-dispatch part of the loop body: `next((t for t in tools if t.name ==
tool_name), None)`, then execute and append, or append the not-found message. -/
def dispatchTool (tools : List PyTool) (d : List (String × PyVal))
    (base : List Msg) : StepOut :=
  match tools.find? (fun t => toolNameHit t (dictGet d "name")) with
  | some t => StepOut.next (base ++ [aiMsg (toolOutcome (dictGet d "name") (t.func (rawArgs d)))])
  | none => StepOut.next (base ++ [aiMsg ("Tool '" ++ pyStrOf (dictGet d "name") ++ "' not found.")])

/-- One iteration of the loop body of `run_agent_with_tools` (`src/app.py`):
invoke the gateway on the window, extend with the slice, inspect the last
message, and either dispatch a tool call (`next`), break with a final answer
(`stop`), or raise (`fail`). -/
def step (gw : Gateway) (tools : List PyTool) (ms : List Msg) : StepOut :=
  match (grown gw ms).getLast? with
  | none => StepOut.fail "IndexError"
  | some last =>
    if isToolCallMsg last then
      match toolCallVal last with
      | PyVal.dict d => dispatchTool tools d (grown gw ms)
      | _ => StepOut.fail "AttributeError"
    else StepOut.stop (grown gw ms)

/-- Observable outcome of a run: final message list, whether the loop left via
`break` (a step inspected a non-tool-call last message), the number of gateway
invocations performed, and for each iteration the conversation at its start
paired with the context passed to the gateway. -/
structure RunOut where
  msgs : List Msg
  finalBreak : Bool
  steps : Nat
  contexts : List (List Msg × List Msg)

/-- `run_agent_with_tools` instrumented with the observations of `RunOut`;
recursion on the remaining iterations of `for _ in range(max_steps)`. -/
def runLog (gw : Gateway) (tools : List PyTool) : Nat → List Msg → Except String RunOut
  | 0, ms => Except.ok { msgs := ms, finalBreak := false, steps := 0, contexts := [] }
  | fuel + 1, ms =>
    match step gw tools ms with
    | StepOut.fail e => Except.error e
    | StepOut.stop r =>
      Except.ok { msgs := r, finalBreak := true, steps := 1, contexts := [(ms, windowOf ms)] }
    | StepOut.next r =>
      match runLog gw tools fuel r with
      | Except.error e => Except.error e
      | Except.ok ro =>
        Except.ok { msgs := ro.msgs, finalBreak := ro.finalBreak, steps := ro.steps + 1,
                    contexts := (ms, windowOf ms) :: ro.contexts }

/-- `run_agent_with_tools(messages, max_steps)` from `src/app.py`: the returned
message list (an uncaught exception is an `Except.error`). -/
def run_agent_with_tools (gw : Gateway) (tools : List PyTool)
    (messages : List Msg) (max_steps : Nat) : Except String (List Msg) :=
  (runLog gw tools max_steps messages).map (fun ro => ro.msgs)

/-- `run_agent_with_tools(messages)` from `src/core/app.py`: one gateway
invocation on the windowed conversation; its message list is returned as is. -/
def core_run_agent_with_tools (agent : Gateway) (messages : List Msg) : List Msg :=
  agent (windowOf messages)

/-! ### Hub statistics tool (`src/tools.py`) -/

/-- A model entry as returned by `huggingface_hub.list_models`. -/
structure ModelInfo where
  id : String
  downloads : Nat

/-- Insert a thousands separator every three digits of a reversed digit list:
the `{model.downloads:,}` format specifier. -/
def commaRev : List Char → List Char
  | a :: b :: c :: d :: rest => a :: b :: c :: ',' :: commaRev (d :: rest)
  | l => l

/-- `f"{n:,}"`: decimal digits grouped in threes by commas. -/
def commaGroup (n : Nat) : String :=
  String.mk (commaRev (toString n).data.reverse).reverse

/-- `get_hub_stats(author)` from `src/tools.py`.  The external call
`list(list_models(author=author, sort="downloads", direction=-1, limit=1))` is
an input: `Except.error cause` when it raises (caught by the `except` branch),
`Except.ok models` otherwise. -/
def get_hub_stats (author : String) (hub : Except String (List ModelInfo)) : String :=
  match hub with
  | Except.error e => "Error fetching models for " ++ author ++ ": " ++ e
  | Except.ok models =>
    match models with
    | model :: _ =>
      "The most downloaded model by " ++ author ++ " is " ++ model.id ++
        " with " ++ commaGroup model.downloads ++ " downloads."
    | [] => "No models found for author " ++ author ++ "."

/-! ### Argument-call shapes (for the normalization claim) -/

/-- How a tool function is invoked: with a single positional value, or with the
entries of a mapping expanded as keyword arguments. -/
inductive CallShape where
  | positional : PyVal → CallShape
  | keyword : List (String × PyVal) → CallShape

/-- The call the source makes: `tool.func(tool_args)` — always one positional
argument holding the raw value. -/
def codeToolCall (args : PyVal) : CallShape :=
  CallShape.positional args

/-- Modelled from the spec's words (argument normalization policy, §4.2): a
mapping containing the convenience key `__arg1` is unwrapped to the wrapped
scalar passed positionally; any other mapping is passed as keyword arguments;
any other value is passed positionally. -/
def specToolCall (args : PyVal) : CallShape :=
  match args with
  | PyVal.dict d =>
    match dictGet d "__arg1" with
    | some w => CallShape.positional w
    | none => CallShape.keyword d
  | v => CallShape.positional v

/-! ### Shape predicates

A message object produced by the message classes of `langchain_core` can carry
a `tool_call` attribute only as a dict payload; `msgOK` captures that shape,
under which the loop's `.get` accesses cannot raise. -/

/-- The `tool_call` attribute, when present, is a dict. -/
def msgOK (m : Msg) : Bool :=
  match m.toolCallAttr with
  | none => true
  | some (PyVal.dict _) => true
  | some _ => false

/-- Every message of the list is well-shaped. -/
def AllOK (ms : List Msg) : Prop :=
  ∀ m ∈ ms, msgOK m = true

/-- The gateway maps well-shaped message lists to well-shaped message lists
(the ModelGateway contract of the spec). -/
def GatewayOK (gw : Gateway) : Prop :=
  ∀ w, AllOK w → AllOK (gw w)

/-- The message is a `HumanMessage`: human role, string content, no `tool_call`
attribute. -/
def isHumanMsg (m : Msg) : Bool :=
  (match m.role with
   | MsgRole.human => true
   | _ => false) &&
    m.toolCallAttr.isNone &&
    (match m.content with
     | PyVal.str _ => true
     | _ => false)

/-- The conversation is nonempty and ends in a `HumanMessage`. -/
def endsHuman (ms : List Msg) : Bool :=
  match ms.getLast? with
  | some m => isHumanMsg m
  | none => false

/-! ### Concrete fixtures used by witnesses and counterexamples -/

/-- A single-message conversation ending in a human question. -/
def ms1 : List Msg := [humanMsg "q"]

/-- A gateway conforming to the LangGraph `add_messages` behaviour: it returns
its input window followed by one plain-text assistant answer. -/
def gwFinal : Gateway := fun w => w ++ [aiMsg "the answer"]

/-- A 51-turn conversation: one old turn followed by 50 newer human turns. -/
def input51 : List Msg := humanMsg "m0" :: List.replicate 50 (humanMsg "x")

/-- The dict payload of a request for the tool `boom` with string arguments. -/
def dBoom : List (String × PyVal) := [("name", PyVal.str "boom"), ("arguments", PyVal.str "x")]

/-- An assistant message carrying a `tool_call` attribute requesting `boom`. -/
def reqBoom : Msg := { role := MsgRole.ai, content := PyVal.str "", toolCallAttr := some (PyVal.dict dBoom) }

/-- A tool whose body always raises `kaput`. -/
def boomTool : PyTool := { name := "boom", func := fun _ => Except.error "kaput" }

/-- A gateway that (constantly) answers with a request for `boom`. -/
def gwBoom : Gateway := fun _ => [humanMsg "q", reqBoom]

/-- `{"__arg1": "Tesla"}`: mapping arguments wrapping a scalar under the
convenience key. -/
def argTesla : PyVal := PyVal.dict [("__arg1", PyVal.str "Tesla")]

/-- The dict payload of a request for the tool `echo` with `argTesla` arguments. -/
def dEcho : List (String × PyVal) := [("name", PyVal.str "echo"), ("arguments", argTesla)]

/-- An assistant message carrying a `tool_call` attribute requesting `echo`. -/
def echoReq : Msg := { role := MsgRole.ai, content := PyVal.str "", toolCallAttr := some (PyVal.dict dEcho) }

/-- A tool that reports the shape of the value it was invoked with: a string
argument is echoed back, a mapping argument is reported as such. -/
def echoTool : PyTool :=
  { name := "echo",
    func := fun v =>
      match v with
      | PyVal.str s => Except.ok s
      | PyVal.dict _ => Except.ok "ARGS-WERE-A-MAPPING" }

/-- A gateway that (constantly) answers with a request for `echo`. -/
def gwEcho : Gateway := fun _ => [humanMsg "q", echoReq]

/-- The dict payload of a request for the unregistered tool `flux`. -/
def dGhost : List (String × PyVal) := [("name", PyVal.str "flux")]

/-- An assistant message requesting the unregistered tool `flux`. -/
def ghostReq : Msg := { role := MsgRole.ai, content := PyVal.str "", toolCallAttr := some (PyVal.dict dGhost) }

/-- A gateway that (constantly) answers with a request for `flux`. -/
def gwGhost : Gateway := fun _ => [humanMsg "q", ghostReq]

/-! ### Helper lemmas about one loop iteration -/

/-- `dispatchTool` always continues the loop, appending one `AIMessage`. -/
theorem dispatchTool_shape (tools : List PyTool) (d : List (String × PyVal))
    (base : List Msg) :
    ∃ s, dispatchTool tools d base = StepOut.next (base ++ [aiMsg s]) := by
  unfold dispatchTool
  split
  · exact ⟨_, rfl⟩
  · exact ⟨_, rfl⟩

/-- A `next` outcome of `step` is the grown conversation plus one appended
`AIMessage`. -/
theorem stepNext_shape {gw : Gateway} {tools : List PyTool} {ms r : List Msg}
    (h : step gw tools ms = StepOut.next r) :
    ∃ s, r = grown gw ms ++ [aiMsg s] := by
  unfold step at h
  split at h
  · simp at h
  · split at h
    · split at h
      · obtain ⟨s, hs⟩ := dispatchTool_shape tools _ (grown gw ms)
        rw [hs] at h
        exact ⟨s, (StepOut.next.injEq _ _ ▸ h).symm⟩
      · simp at h
    · simp at h

/-- A `stop` outcome of `step` returns exactly the grown conversation. -/
theorem stepStop_shape {gw : Gateway} {tools : List PyTool} {ms r : List Msg}
    (h : step gw tools ms = StepOut.stop r) : r = grown gw ms := by
  unfold step at h
  split at h
  · simp at h
  · split at h
    · split at h
      · obtain ⟨s, hs⟩ := dispatchTool_shape tools _ (grown gw ms)
        rw [hs] at h
        simp at h
      · simp at h
    · exact (StepOut.stop.injEq _ _ ▸ h).symm

/-- Any continuing step extends the input conversation at the back. -/
theorem stepNext_extends {gw : Gateway} {tools : List PyTool} {ms r : List Msg}
    (h : step gw tools ms = StepOut.next r) : ∃ t, r = ms ++ t := by
  obtain ⟨s, hs⟩ := stepNext_shape h
  exact ⟨newMsgsOf gw ms ++ [aiMsg s], by rw [hs, grown, List.append_assoc]⟩

/-- Any stopping step extends the input conversation at the back. -/
theorem stepStop_extends {gw : Gateway} {tools : List PyTool} {ms r : List Msg}
    (h : step gw tools ms = StepOut.stop r) : ∃ t, r = ms ++ t :=
  ⟨newMsgsOf gw ms, stepStop_shape h⟩

/-! ### Helper lemmas about the whole run -/

/-- A completed run only ever appends: the input conversation is a prefix of
the returned one. -/
theorem runLog_extends {gw : Gateway} {tools : List PyTool} :
    ∀ {fuel : Nat} {ms : List Msg} {ro : RunOut},
      runLog gw tools fuel ms = Except.ok ro → ∃ t, ro.msgs = ms ++ t := by
  intro fuel
  induction fuel with
  | zero =>
    intro ms ro h
    unfold runLog at h
    rw [Except.ok.injEq] at h
    exact ⟨[], by rw [← h, List.append_nil]⟩
  | succ n ih =>
    intro ms ro h
    unfold runLog at h
    cases hs : step gw tools ms with
    | fail e => rw [hs] at h; simp at h
    | stop r =>
      rw [hs] at h
      rw [Except.ok.injEq] at h
      obtain ⟨t, ht⟩ := stepStop_extends hs
      exact ⟨t, by rw [← h, ht]⟩
    | next r =>
      rw [hs] at h
      dsimp only at h
      cases hr : runLog gw tools n r with
      | error e => rw [hr] at h; simp at h
      | ok ro2 =>
        rw [hr] at h
        rw [Except.ok.injEq] at h
        obtain ⟨t, ht⟩ := stepNext_extends hs
        obtain ⟨t2, ht2⟩ := ih hr
        exact ⟨t ++ t2, by rw [← h]; simp only [ht2, ht, List.append_assoc]⟩

/-- The number of gateway invocations of a completed run is bounded by the
step budget. -/
theorem runLog_steps_le {gw : Gateway} {tools : List PyTool} :
    ∀ {fuel : Nat} {ms : List Msg} {ro : RunOut},
      runLog gw tools fuel ms = Except.ok ro → ro.steps ≤ fuel := by
  intro fuel
  induction fuel with
  | zero =>
    intro ms ro h
    unfold runLog at h
    rw [Except.ok.injEq] at h
    rw [← h]
  | succ n ih =>
    intro ms ro h
    unfold runLog at h
    cases hs : step gw tools ms with
    | fail e => rw [hs] at h; simp at h
    | stop r =>
      rw [hs] at h
      rw [Except.ok.injEq] at h
      rw [← h]
      exact Nat.succ_le_succ (Nat.zero_le n)
    | next r =>
      rw [hs] at h
      dsimp only at h
      cases hr : runLog gw tools n r with
      | error e => rw [hr] at h; simp at h
      | ok ro2 =>
        rw [hr] at h
        rw [Except.ok.injEq] at h
        rw [← h]
        exact Nat.succ_le_succ (ih hr)

/-- Every logged iteration of a completed run pairs a conversation that extends
the input with exactly its rolling window, and the final conversation extends
every logged conversation. -/
theorem runLog_contexts {gw : Gateway} {tools : List PyTool} :
    ∀ {fuel : Nat} {ms : List Msg} {ro : RunOut},
      runLog gw tools fuel ms = Except.ok ro →
      ∀ p ∈ ro.contexts,
        p.2 = windowOf p.1 ∧ (∃ t, p.1 = ms ++ t) ∧ ∃ t2, ro.msgs = p.1 ++ t2 := by
  intro fuel
  induction fuel with
  | zero =>
    intro ms ro h p hp
    unfold runLog at h
    rw [Except.ok.injEq] at h
    rw [← h] at hp
    simp at hp
  | succ n ih =>
    intro ms ro h p hp
    unfold runLog at h
    cases hs : step gw tools ms with
    | fail e => rw [hs] at h; simp at h
    | stop r =>
      rw [hs] at h
      rw [Except.ok.injEq] at h
      rw [← h] at hp
      simp only [List.mem_singleton] at hp
      subst hp
      refine ⟨rfl, ⟨[], by rw [List.append_nil]⟩, ?_⟩
      obtain ⟨t, ht⟩ := stepStop_extends hs
      exact ⟨t, by rw [← h, ht]⟩
    | next r =>
      rw [hs] at h
      dsimp only at h
      cases hr : runLog gw tools n r with
      | error e => rw [hr] at h; simp at h
      | ok ro2 =>
        rw [hr] at h
        rw [Except.ok.injEq] at h
        rw [← h] at hp
        simp only [List.mem_cons] at hp
        cases hp with
        | inl hp =>
          subst hp
          refine ⟨rfl, ⟨[], by rw [List.append_nil]⟩, ?_⟩
          obtain ⟨t, ht⟩ := stepNext_extends hs
          obtain ⟨t2, ht2⟩ := runLog_extends hr
          exact ⟨t ++ t2, by rw [← h]; simp only [ht2, ht, List.append_assoc]⟩
        | inr hp =>
          obtain ⟨hwin, ⟨t, ht⟩, ⟨t2, ht2⟩⟩ := ih hr p hp
          obtain ⟨t0, ht0⟩ := stepNext_extends hs
          refine ⟨hwin, ⟨t0 ++ t, by rw [ht, ht0, List.append_assoc]⟩, ?_⟩
          exact ⟨t2, by rw [← h]; exact ht2⟩

/-! ### Totality of the loop under the gateway contract -/

/-- A well-shaped nonempty conversation grown by a contract-conforming gateway
stays well-shaped and nonempty. -/
theorem grown_ok {gw : Gateway} {ms : List Msg} (hgw : GatewayOK gw)
    (hok : AllOK ms) (hne : ms ≠ []) :
    AllOK (grown gw ms) ∧ grown gw ms ≠ [] := by
  have hw : AllOK (windowOf ms) := fun m hm => hok m (List.mem_of_mem_drop hm)
  have hnew : AllOK (newMsgsOf gw ms) :=
    fun m hm => hgw (windowOf ms) hw m (List.mem_of_mem_drop hm)
  constructor
  · intro m hm
    rcases List.mem_append.mp hm with h | h
    · exact hok m h
    · exact hnew m h
  · intro hc
    exact hne (List.append_eq_nil.mp hc).1

/-- On a well-shaped nonempty conversation driven by a contract-conforming
gateway, one iteration never raises: it either continues with a well-shaped
nonempty conversation or breaks. -/
theorem step_total {gw : Gateway} {tools : List PyTool} {ms : List Msg}
    (hgw : GatewayOK gw) (hok : AllOK ms) (hne : ms ≠ []) :
    (∃ r, step gw tools ms = StepOut.next r ∧ AllOK r ∧ r ≠ []) ∨
      ∃ r, step gw tools ms = StepOut.stop r := by
  obtain ⟨hgok, hgne⟩ := grown_ok hgw hok hne
  obtain ⟨l, hl⟩ : ∃ l, (grown gw ms).getLast? = some l := by
    cases hgl : (grown gw ms).getLast? with
    | none => exact absurd (List.getLast?_eq_none_iff.mp hgl) hgne
    | some l => exact ⟨l, rfl⟩
  have hlok : msgOK l = true :=
    hgok l (List.mem_of_mem_getLast? (by rw [hl]; exact rfl))
  cases htc : isToolCallMsg l with
  | false =>
    right
    refine ⟨grown gw ms, ?_⟩
    unfold step
    rw [hl]
    simp [htc]
  | true =>
    left
    have hdict : ∃ d, toolCallVal l = PyVal.dict d := by
      unfold toolCallVal
      cases hattr : l.toolCallAttr with
      | some v =>
        unfold msgOK at hlok
        rw [hattr] at hlok
        cases v with
        | dict d => exact ⟨d, rfl⟩
        | str s => simp at hlok
      | none =>
        unfold isToolCallMsg at htc
        rw [hattr] at htc
        cases hc : l.content with
        | dict d => exact ⟨d, rfl⟩
        | str s => rw [hc] at htc; simp at htc
    obtain ⟨d, hd⟩ := hdict
    obtain ⟨s, hs⟩ := dispatchTool_shape tools d (grown gw ms)
    refine ⟨grown gw ms ++ [aiMsg s], ?_, ?_, ?_⟩
    · unfold step
      rw [hl]
      simp only [htc, if_true, hd, hs]
    · intro m hm
      rcases List.mem_append.mp hm with h | h
      · exact hgok m h
      · rw [List.mem_singleton.mp h]
        exact rfl
    · simp

/-- Under the gateway contract, the whole run never raises. -/
theorem runLog_total {gw : Gateway} {tools : List PyTool} (hgw : GatewayOK gw) :
    ∀ {fuel : Nat} {ms : List Msg}, AllOK ms → ms ≠ [] →
      ∃ ro, runLog gw tools fuel ms = Except.ok ro := by
  intro fuel
  induction fuel with
  | zero =>
    intro ms _ _
    exact ⟨_, rfl⟩
  | succ n ih =>
    intro ms hok hne
    rcases @step_total gw tools ms hgw hok hne with ⟨r, hs, hrok, hrne⟩ | ⟨r, hs⟩
    · obtain ⟨ro, hro⟩ := ih hrok hrne
      refine ⟨{ msgs := ro.msgs, finalBreak := ro.finalBreak, steps := ro.steps + 1,
                contexts := (ms, windowOf ms) :: ro.contexts }, ?_⟩
      unfold runLog
      rw [hs]
      dsimp only
      rw [hro]
    · refine ⟨{ msgs := r, finalBreak := true, steps := 1,
                contexts := [(ms, windowOf ms)] }, ?_⟩
      unfold runLog
      rw [hs]

/-! ### Claims -/

/-- C1 (amended): for every input message list and positive `max_steps`, the
`src/app.py` entry point `run_agent_with_tools` applies the rolling window only
to the gateway's context — every context handed to the gateway is the window of
the then-current conversation — and returns the full input history extended
with the newly appended turns: the whole input conversation, turns older than
the window included, is an unchanged in-order prefix of the result. -/
theorem C1_full_history_window_only (gw : Gateway) (tools : List PyTool)
    (ms : List Msg) (fuel : Nat) (ro : RunOut)
    (_hfuel : 0 < fuel) (hrun : runLog gw tools fuel ms = Except.ok ro) :
    (∃ t, ro.msgs = ms ++ t) ∧ ∀ p ∈ ro.contexts, p.2 = windowOf p.1 :=
  ⟨runLog_extends hrun, fun p hp => (runLog_contexts hrun p hp).1⟩

/-- Witness for C1: a one-question run against a gateway that answers at once. -/
theorem C1_full_history_window_only_w :
    0 < 1 ∧
    runLog gwFinal [] 1 ms1 =
      Except.ok { msgs := [humanMsg "q", aiMsg "the answer"], finalBreak := true,
                  steps := 1, contexts := [(ms1, ms1)] } ∧
    ((∃ t, ([humanMsg "q", aiMsg "the answer"] : List Msg) = ms1 ++ t) ∧
      ∀ p ∈ [(ms1, ms1)], p.2 = windowOf p.1) :=
  ⟨by decide, rfl,
    C1_full_history_window_only gwFinal [] ms1 1
      { msgs := [humanMsg "q", aiMsg "the answer"], finalBreak := true,
        steps := 1, contexts := [(ms1, ms1)] } (by decide) rfl⟩

/-- Counterexample for C1 as stated: the `src/core/app.py` variant of
`run_agent_with_tools`, on a 51-turn history and a gateway conforming to the
LangGraph behaviour (window plus one appended answer), returns a conversation
whose first turn is not the input's first turn — the turn older than the
window has been dropped, so the full input history is not at the front. -/
theorem C1_core_variant_cex :
    (core_run_agent_with_tools gwFinal input51).head? = some (humanMsg "x") ∧
    input51.head? = some (humanMsg "m0") ∧
    humanMsg "x" ≠ humanMsg "m0" := by
  refine ⟨rfl, rfl, ?_⟩
  intro h
  have h2 : PyVal.str "x" = PyVal.str "m0" := congrArg Msg.content h
  injection h2 with h3
  exact absurd h3 (by decide)

/-- C3: for every conversation ending in a `HumanTurn` (and well-shaped
messages, driven by a contract-conforming gateway) and every `max_steps ≥ 1`,
the loop terminates after at most `max_steps` gateway iterations and returns a
conversation at least as long as the input. -/
theorem C3_terminates_within_budget (gw : Gateway) (tools : List PyTool)
    (ms : List Msg) (fuel : Nat)
    (_hfuel : 1 ≤ fuel) (hhuman : endsHuman ms = true)
    (hok : AllOK ms) (hgw : GatewayOK gw) :
    ∃ ro, runLog gw tools fuel ms = Except.ok ro ∧
      ro.steps ≤ fuel ∧ ms.length ≤ ro.msgs.length := by
  have hne : ms ≠ [] := by
    intro hc
    rw [hc] at hhuman
    exact absurd hhuman (by decide)
  obtain ⟨ro, hro⟩ := @runLog_total gw tools hgw fuel ms hok hne
  refine ⟨ro, hro, runLog_steps_le hro, ?_⟩
  obtain ⟨t, ht⟩ := runLog_extends hro
  rw [ht, List.length_append]
  exact Nat.le_add_right ..

/-- Witness for C3: a one-question run against a gateway that answers at once. -/
theorem C3_terminates_within_budget_w :
    1 ≤ 3 ∧ endsHuman ms1 = true ∧ AllOK ms1 ∧ GatewayOK gwFinal ∧
    ∃ ro, runLog gwFinal [] 3 ms1 = Except.ok ro ∧
      ro.steps ≤ 3 ∧ ms1.length ≤ ro.msgs.length := by
  have hA : AllOK ms1 := by
    intro m hm
    rw [List.mem_singleton.mp hm]
    exact rfl
  have hG : GatewayOK gwFinal := by
    intro w hw m hm
    simp only [gwFinal] at hm
    rcases List.mem_append.mp hm with h | h
    · exact hw m h
    · rw [List.mem_singleton.mp h]
      exact rfl
  exact ⟨by decide, rfl, hA, hG,
    C3_terminates_within_budget gwFinal [] ms1 3 (by decide) rfl hA hG⟩

/-- C6: whenever the conversation is longer than the window (50), every context
handed to the gateway is exactly the last 50 turns of the then-current
conversation, and the turns older than the window are present unmodified in the
returned full conversation (the input is a prefix of the result). -/
theorem C6_window_bounding (gw : Gateway) (tools : List PyTool) (ms : List Msg)
    (fuel : Nat) (ro : RunOut)
    (hlen : ROLLING_MEMORY_WINDOW < ms.length)
    (hrun : runLog gw tools fuel ms = Except.ok ro) :
    (∃ t, ro.msgs = ms ++ t) ∧
      ∀ p ∈ ro.contexts,
        p.2.length = ROLLING_MEMORY_WINDOW ∧ ∃ pre, p.1 = pre ++ p.2 := by
  refine ⟨runLog_extends hrun, fun p hp => ?_⟩
  obtain ⟨hwin, ⟨t, ht⟩, _⟩ := runLog_contexts hrun p hp
  have hplen : ROLLING_MEMORY_WINDOW ≤ p.1.length := by
    rw [ht, List.length_append]
    exact Nat.le_trans (Nat.le_of_lt hlen) (Nat.le_add_right ..)
  constructor
  · rw [hwin, windowOf, List.length_drop]
    exact Nat.sub_sub_self hplen
  · exact ⟨p.1.take (p.1.length - ROLLING_MEMORY_WINDOW),
      by rw [hwin, windowOf, List.take_append_drop]⟩

/-- Witness for C6: a 51-turn history; the only gateway context has exactly 50
turns and the result still starts with the full 51-turn input. -/
theorem C6_window_bounding_w :
    ROLLING_MEMORY_WINDOW < input51.length ∧
    runLog gwFinal [] 3 input51 =
      Except.ok { msgs := input51, finalBreak := true, steps := 1,
                  contexts := [(input51, windowOf input51)] } ∧
    ((∃ t, input51 = input51 ++ t) ∧
      ∀ p ∈ [(input51, windowOf input51)],
        p.2.length = ROLLING_MEMORY_WINDOW ∧ ∃ pre, p.1 = pre ++ p.2) :=
  ⟨by decide, rfl,
    C6_window_bounding gwFinal [] input51 3
      { msgs := input51, finalBreak := true, steps := 1,
        contexts := [(input51, windowOf input51)] } (by decide) rfl⟩

/-- C8: when the input conversation is at least as long as the gateway's
returned message list, the slice `response["messages"][len(messages):]` is
empty, the gateway's reply is discarded, and — the pre-existing last message
carrying no tool call — the loop exits after its first iteration returning the
input conversation unchanged. -/
theorem C8_empty_slice_early_return (gw : Gateway) (tools : List PyTool)
    (ms : List Msg) (last : Msg) (fuel : Nat)
    (hlast : ms.getLast? = some last)
    (hnotc : isToolCallMsg last = false)
    (hle : (gw (windowOf ms)).length ≤ ms.length) :
    runLog gw tools (fuel + 1) ms =
      Except.ok { msgs := ms, finalBreak := true, steps := 1,
                  contexts := [(ms, windowOf ms)] } := by
  have hg : grown gw ms = ms := by
    unfold grown newMsgsOf
    rw [List.drop_eq_nil_of_le hle, List.append_nil]
  have hstep : step gw tools ms = StepOut.stop ms := by
    unfold step
    rw [hg, hlast]
    simp [hnotc]
  unfold runLog
  rw [hstep]

/-- Witness for C8: a 51-turn history against a conforming gateway; the
gateway's 51 returned messages are sliced away and the run returns the input
after one iteration. -/
theorem C8_empty_slice_early_return_w :
    input51.getLast? = some (humanMsg "x") ∧
    isToolCallMsg (humanMsg "x") = false ∧
    (gwFinal (windowOf input51)).length ≤ input51.length ∧
    runLog gwFinal [] (9 + 1) input51 =
      Except.ok { msgs := input51, finalBreak := true, steps := 1,
                  contexts := [(input51, windowOf input51)] } :=
  ⟨rfl, rfl, by decide,
    C8_empty_slice_early_return gwFinal [] input51 (humanMsg "x") 9 rfl rfl (by decide)⟩

/-- C10: the returned conversation is the input extended at the back only —
every input element keeps its position and value; nothing is replaced,
reordered or removed. -/
theorem C10_append_only_frame (gw : Gateway) (tools : List PyTool)
    (ms : List Msg) (fuel : Nat) (out : List Msg)
    (hrun : run_agent_with_tools gw tools ms fuel = Except.ok out) :
    ∃ t, out = ms ++ t ∧
      ∀ i (hi : i < ms.length) (ho : i < out.length),
        out.get ⟨i, ho⟩ = ms.get ⟨i, hi⟩ := by
  unfold run_agent_with_tools at hrun
  cases hro : runLog gw tools fuel ms with
  | error e =>
    rw [hro] at hrun
    exact Except.noConfusion
      (show (Except.error e : Except String (List Msg)) = Except.ok out from hrun)
  | ok ro =>
    rw [hro] at hrun
    have hrun2 : ro.msgs = out := by
      have h2 : Except.ok ro.msgs = Except.ok out := hrun
      exact Except.ok.inj h2
    obtain ⟨t, ht⟩ := runLog_extends hro
    rw [hrun2] at ht
    subst ht
    refine ⟨t, rfl, ?_⟩
    intro i hi ho
    simp [List.getElem_append_left hi]

/-- The gateway `gwFinal` conforms to the contract: it only appends a plain
assistant answer to a well-shaped window. -/
theorem gwFinal_conforms : GatewayOK gwFinal := by
  intro w hw m hm
  simp only [gwFinal] at hm
  rcases List.mem_append.mp hm with h | h
  · exact hw m h
  · rw [List.mem_singleton.mp h]
    exact rfl

/-- When the inspected last message is a tool call whose payload is a dict,
the iteration reduces to the tool-dispatch code. -/
theorem step_toolcall_eq {gw : Gateway} {tools : List PyTool} {ms : List Msg}
    {last : Msg} {d : List (String × PyVal)}
    (hlast : (grown gw ms).getLast? = some last)
    (htc : isToolCallMsg last = true)
    (hval : toolCallVal last = PyVal.dict d) :
    step gw tools ms = dispatchTool tools d (grown gw ms) := by
  unfold step
  simp [hlast, htc, hval]

/-- C4: when the requested tool is found and its body raises, the failure is
caught — the iteration neither raises nor breaks — and the loop continues with
an appended turn whose message is exactly
`"Error executing tool <name>: <cause>"`. -/
theorem C4_tool_failure_absorbed (gw : Gateway) (tools : List PyTool)
    (ms : List Msg) (last : Msg) (d : List (String × PyVal)) (n : String)
    (t : PyTool) (cause : String)
    (hlast : (grown gw ms).getLast? = some last)
    (htc : isToolCallMsg last = true)
    (hval : toolCallVal last = PyVal.dict d)
    (hname : dictGet d "name" = some (PyVal.str n))
    (hfind : tools.find? (fun tl => toolNameHit tl (dictGet d "name")) = some t)
    (hfail : t.func (rawArgs d) = Except.error cause) :
    step gw tools ms =
      StepOut.next (grown gw ms ++
        [aiMsg ("Error executing tool " ++ n ++ ": " ++ cause)]) := by
  rw [step_toolcall_eq hlast htc hval]
  unfold dispatchTool
  rw [hfind]
  dsimp only
  rw [hfail, hname]
  exact rfl

/-- Witness for C4: a gateway requesting the tool `boom`, whose body raises
`kaput`; the loop continues with the exact error turn. -/
theorem C4_tool_failure_absorbed_w :
    (grown gwBoom ms1).getLast? = some reqBoom ∧
    isToolCallMsg reqBoom = true ∧
    toolCallVal reqBoom = PyVal.dict dBoom ∧
    dictGet dBoom "name" = some (PyVal.str "boom") ∧
    [boomTool].find? (fun tl => toolNameHit tl (dictGet dBoom "name")) = some boomTool ∧
    boomTool.func (rawArgs dBoom) = Except.error "kaput" ∧
    step gwBoom [boomTool] ms1 =
      StepOut.next (grown gwBoom ms1 ++
        [aiMsg ("Error executing tool " ++ "boom" ++ ": " ++ "kaput")]) :=
  ⟨rfl, rfl, rfl, rfl, rfl, rfl,
    C4_tool_failure_absorbed gwBoom [boomTool] ms1 reqBoom dBoom "boom" boomTool "kaput"
      rfl rfl rfl rfl rfl rfl⟩

/-- C5 (amended): when the requested tool name has no case-sensitive match in
the registry, the iteration does not raise and does not break: it continues
with an appended turn whose message is exactly `"Tool '<name>' not found."`
(with a trailing period). -/
theorem C5_unknown_tool_absorbed (gw : Gateway) (tools : List PyTool)
    (ms : List Msg) (last : Msg) (d : List (String × PyVal)) (n : String)
    (hlast : (grown gw ms).getLast? = some last)
    (htc : isToolCallMsg last = true)
    (hval : toolCallVal last = PyVal.dict d)
    (hname : dictGet d "name" = some (PyVal.str n))
    (hfind : tools.find? (fun tl => toolNameHit tl (dictGet d "name")) = none) :
    step gw tools ms =
      StepOut.next (grown gw ms ++ [aiMsg ("Tool '" ++ n ++ "' not found.")]) := by
  rw [step_toolcall_eq hlast htc hval]
  unfold dispatchTool
  rw [hfind]
  dsimp only
  rw [hname]
  exact rfl

/-- Witness for C5: a gateway requesting the unregistered tool `flux` against
a registry holding only `boom`. -/
theorem C5_unknown_tool_absorbed_w :
    (grown gwGhost ms1).getLast? = some ghostReq ∧
    isToolCallMsg ghostReq = true ∧
    toolCallVal ghostReq = PyVal.dict dGhost ∧
    dictGet dGhost "name" = some (PyVal.str "flux") ∧
    [boomTool].find? (fun tl => toolNameHit tl (dictGet dGhost "name")) = none ∧
    step gwGhost [boomTool] ms1 =
      StepOut.next (grown gwGhost ms1 ++ [aiMsg ("Tool '" ++ "flux" ++ "' not found.")]) :=
  ⟨rfl, rfl, rfl, rfl, rfl,
    C5_unknown_tool_absorbed gwGhost [boomTool] ms1 ghostReq dGhost "flux"
      rfl rfl rfl rfl rfl⟩

/-- Counterexample for C5 as stated: the message the code appends for the
unknown tool `flux` is `"Tool 'flux' not found."` — with a trailing period —
which is not the claimed exact message `"Tool 'flux' not found"`. -/
theorem C5_exact_message_cex :
    step gwGhost [boomTool] ms1 =
      StepOut.next [humanMsg "q", ghostReq, aiMsg "Tool 'flux' not found."] ∧
    "Tool 'flux' not found." ≠ "Tool 'flux' not found" :=
  ⟨rfl, by decide⟩

/-- C2 (amended): no argument normalization is performed before dispatch — the
raw value of `tool_call.get("arguments", tool_call.get("input", ""))` is always
passed unchanged as the single positional argument of the tool function,
whatever its shape. -/
theorem C2_raw_positional_args (gw : Gateway) (tools : List PyTool)
    (ms : List Msg) (last : Msg) (d : List (String × PyVal)) (t : PyTool)
    (hlast : (grown gw ms).getLast? = some last)
    (htc : isToolCallMsg last = true)
    (hval : toolCallVal last = PyVal.dict d)
    (hfind : tools.find? (fun tl => toolNameHit tl (dictGet d "name")) = some t) :
    step gw tools ms =
      StepOut.next (grown gw ms ++
        [aiMsg (toolOutcome (dictGet d "name") (t.func (rawArgs d)))]) ∧
    codeToolCall (rawArgs d) = CallShape.positional (rawArgs d) := by
  rw [step_toolcall_eq hlast htc hval]
  unfold dispatchTool
  rw [hfind]
  dsimp only
  exact ⟨rfl, rfl⟩

/-- Witness for C2: the `echo` tool invoked through a request whose arguments
are the mapping `argTesla`; the tool receives the raw mapping. -/
theorem C2_raw_positional_args_w :
    (grown gwEcho ms1).getLast? = some echoReq ∧
    isToolCallMsg echoReq = true ∧
    toolCallVal echoReq = PyVal.dict dEcho ∧
    [echoTool].find? (fun tl => toolNameHit tl (dictGet dEcho "name")) = some echoTool ∧
    (step gwEcho [echoTool] ms1 =
      StepOut.next (grown gwEcho ms1 ++
        [aiMsg (toolOutcome (dictGet dEcho "name") (echoTool.func (rawArgs dEcho)))]) ∧
      codeToolCall (rawArgs dEcho) = CallShape.positional (rawArgs dEcho)) :=
  ⟨rfl, rfl, rfl, rfl,
    C2_raw_positional_args gwEcho [echoTool] ms1 echoReq dEcho echoTool rfl rfl rfl rfl⟩

/-- Counterexample for C2 as stated: with arguments `{"__arg1": "Tesla"}` the
spec-modelled normalization would invoke the tool with the positional string
`"Tesla"` (so `echo` would answer `"Tesla"`), but the code passes the mapping
itself: `echo` answers `"ARGS-WERE-A-MAPPING"`, and the call the code makes is
not a positional `"Tesla"` call. -/
theorem C2_convenience_key_cex :
    step gwEcho [echoTool] ms1 =
      StepOut.next [humanMsg "q", echoReq, aiMsg "ARGS-WERE-A-MAPPING"] ∧
    "ARGS-WERE-A-MAPPING" ≠ "Tesla" ∧
    specToolCall argTesla = CallShape.positional (PyVal.str "Tesla") ∧
    codeToolCall argTesla ≠ CallShape.positional (PyVal.str "Tesla") := by
  refine ⟨rfl, by decide, rfl, ?_⟩
  intro h
  injection h with h2
  have h3 : PyVal.dict [("__arg1", PyVal.str "Tesla")] = PyVal.str "Tesla" := h2
  exact PyVal.noConfusion h3

/-- C7 (code bug demonstration): on a 51-turn conversation ending in a human
turn, with a contract-conforming gateway that answers immediately and a budget
of 10, the loop leaves via `break` after a single iteration — not by budget
exhaustion — yet the last turn of the returned conversation is the input's
`HumanMessage`, not a final-answer assistant turn: a terminal shape the claim
says cannot occur. -/
theorem C7_terminal_shape_demo :
    runLog gwFinal [] 10 input51 =
      Except.ok { msgs := input51, finalBreak := true, steps := 1,
                  contexts := [(input51, windowOf input51)] } ∧
    input51.getLast? = some (humanMsg "x") ∧
    isHumanMsg (humanMsg "x") = true ∧
    (1 : Nat) < 10 ∧
    GatewayOK gwFinal :=
  ⟨rfl, rfl, rfl, by decide, gwFinal_conforms⟩

/-- C9: for every author and every outcome of the external hub call,
`get_hub_stats` returns (totally — it never raises) one of the three strings:
the most-downloaded-model sentence, the no-models sentinel, or the error
string naming the author and the cause. -/
theorem C9_hub_stats_total (author : String) (hub : Except String (List ModelInfo)) :
    (∃ cause, hub = Except.error cause ∧
      get_hub_stats author hub = "Error fetching models for " ++ author ++ ": " ++ cause) ∨
    (hub = Except.ok [] ∧
      get_hub_stats author hub = "No models found for author " ++ author ++ ".") ∨
    ∃ m rest, hub = Except.ok (m :: rest) ∧
      get_hub_stats author hub =
        "The most downloaded model by " ++ author ++ " is " ++ m.id ++
          " with " ++ commaGroup m.downloads ++ " downloads." := by
  cases hub with
  | error e => exact Or.inl ⟨e, rfl, rfl⟩
  | ok models =>
    cases models with
    | nil => exact Or.inr (Or.inl ⟨rfl, rfl⟩)
    | cons m rest => exact Or.inr (Or.inr ⟨m, rest, rfl, rfl⟩)

/-- Witness for C10: a one-question run; the input survives at position 0. -/
theorem C10_append_only_frame_w :
    run_agent_with_tools gwFinal [] ms1 1 =
      Except.ok [humanMsg "q", aiMsg "the answer"] ∧
    ∃ t, ([humanMsg "q", aiMsg "the answer"] : List Msg) = ms1 ++ t ∧
      ∀ i (hi : i < ms1.length)
        (ho : i < ([humanMsg "q", aiMsg "the answer"] : List Msg).length),
        ([humanMsg "q", aiMsg "the answer"] : List Msg).get ⟨i, ho⟩ = ms1.get ⟨i, hi⟩ :=
  ⟨rfl, C10_append_only_frame gwFinal [] ms1 1 [humanMsg "q", aiMsg "the answer"] rfl⟩

end AiPartyAgent
